import Mathlib

/-!
Shallow embedding of two source files of the rx-player repository:
`src/net/dash/mp4.js` (ISOBMFF box locator `findAtom` / `getAtomContent`,
segment-index decoder `parseSidx`, protection-box builder `createPssh` and
patcher `patchPssh`) and the `BufferingQueue` class (serialized buffer
queue over a MediaSource `SourceBuffer`).

Byte buffers (JS `Uint8Array`) are modelled as `List Nat`, one element per
byte; JS numbers as `Nat` / `Int`; a thrown JS error (via `assert` or
`throw new Error`) as the `Except String` error case.
-/

deriving instance DecidableEq for Except

namespace RxPlayer

/-- Modelled from the spec: `be4toi` of `utils/bytes` is not under `src/`.
Big-endian read of the 4 bytes starting at index `i` (an out-of-range JS
index reads as 0 here; every use proved about below is in range). -/
def be4toi (buf : List Nat) (i : Nat) : Nat :=
  buf.getD i 0 * 2 ^ 24 + buf.getD (i + 1) 0 * 2 ^ 16 +
    buf.getD (i + 2) 0 * 2 ^ 8 + buf.getD (i + 3) 0

/-- Modelled from the spec: `be2toi` of `utils/bytes` is not under `src/`.
Big-endian read of the 2 bytes starting at index `i`. -/
def be2toi (buf : List Nat) (i : Nat) : Nat :=
  buf.getD i 0 * 2 ^ 8 + buf.getD (i + 1) 0

/-- Modelled from the spec: `be8toi` of `utils/bytes` is not under `src/`.
Big-endian read of the 8 bytes starting at index `i`. -/
def be8toi (buf : List Nat) (i : Nat) : Nat :=
  be4toi buf i * 2 ^ 32 + be4toi buf (i + 4)

/-- Modelled from the spec: `itobe4` of `utils/bytes` is not under `src/`.
4-byte big-endian encoding of an integer; values at or above `2 ^ 32`
silently wrap, as the 32-bit JS encoding does. -/
def itobe4 (n : Nat) : List Nat :=
  [n / 2 ^ 24 % 256, n / 2 ^ 16 % 256, n / 2 ^ 8 % 256, n % 256]

/-- Modelled from the spec: `strToBytes` of `utils/bytes` is not under
`src/`. Each character becomes one byte (the box names used are ASCII). -/
def strToBytes (s : List Char) : List Nat :=
  s.map fun c => c.toNat % 256

/-- Argument of the variadic `concat` of `utils/bytes`: a number stands for
that many zeroed bytes (the `createPssh` source comments on this:
"4 initial zeroed bytes"), an array for its bytes. -/
inductive ConcatArg where
  | num (n : Nat)
  | arr (a : List Nat)

/-- Modelled from the spec: `concat` of `utils/bytes` is not under `src/`.
Concatenates its arguments into a fresh byte array; a numeric argument
contributes that many zeroed bytes. -/
def concatBytes (args : List ConcatArg) : List Nat :=
  args.foldr
    (fun a acc =>
      (match a with
        | .num n => List.replicate n 0
        | .arr l => l) ++ acc)
    []

/-- Loop of `findAtom` / `getAtomContent` (`mp4.js`): scan top-level boxes
while `i + 8 < buf.length`, reading each box's 4-byte size and 4-byte name;
`assert(size > 0)` (a throw) on a zero size; stop on a name match, else
advance by `size`. The JS variable `size` is declared outside the loop and
is `undefined` until the first iteration, modelled by the `Option Nat`
argument (also the returned stale value when the loop exits by its
condition). `fuel` bounds the recursion; since every iteration advances
`i` by at least 1, `buf.length + 1` fuel is never exhausted. -/
def findAtomAux (buf : List Nat) (atomName : Nat) :
    Nat → Nat → Option Nat → Except String (Nat × Option Nat)
  | 0, i, sz => .ok (i, sz)
  | fuel + 1, i, sz =>
    if i + 8 < buf.length then
      let size := be4toi buf i
      let name := be4toi buf (i + 4)
      if 0 < size then
        if name = atomName then .ok (i, some size)
        else findAtomAux buf atomName fuel (i + size) (some size)
      else .error "dash: out of range size"
    else .ok (i, sz)

/-- `findAtom(buf, atomName)` of `mp4.js`: offset of the first top-level
box whose name matches (pointing at its size field), `-1` when the scan
runs past the end, a thrown assertion (`.error`) on a zero box size or
when the final `assert(i + size <= l)` fails. When the loop never ran,
`size` is `undefined` and the JS comparison `i + undefined <= l` is false,
so the assert also throws; this is the `none` case below. -/
def findAtom (buf : List Nat) (atomName : Nat) : Except String Int :=
  match findAtomAux buf atomName (buf.length + 1) 0 none with
  | .error e => .error e
  | .ok (i, sz) =>
    if buf.length ≤ i then .ok (-1)
    else
      match sz with
      | none => .error "dash: atom out of range"
      | some size =>
        if i + size ≤ buf.length then .ok (Int.ofNat i)
        else .error "dash: atom out of range"

/-- `getAtomContent(buf, atomName)` of `mp4.js`: same scan loop, but on
exit with `i < l` it returns `buf.subarray(i + 8, i + size)` with no
further assert. `Uint8Array.subarray` clamps both bounds to the buffer
and yields the empty array when the end bound is at or before the start
bound; with `size` still `undefined` the end bound coerces to 0, giving
the empty array. `.ok none` is the JS `null` (not found). -/
def getAtomContent (buf : List Nat) (atomName : Nat) :
    Except String (Option (List Nat)) :=
  match findAtomAux buf atomName (buf.length + 1) 0 none with
  | .error e => .error e
  | .ok (i, sz) =>
    if i < buf.length then
      match sz with
      | some size => .ok (some ((buf.take (i + size)).drop (i + 8)))
      | none => .ok (some [])
    else .ok none

/-- One subsegment produced by `parseSidx` (`mp4.js`): presentation time
`ts` and duration `d` in timescale units, `r` always 0, and the inclusive
byte range `range`. The range endpoints are JS numbers that can go
negative (`offset + refSize - 1` with a zero `refSize`), hence `Int`. -/
structure SubSegment where
  ts : Nat
  d : Nat
  r : Nat
  range : Int × Int
deriving DecidableEq

/-- Result object of `parseSidx` (`mp4.js`): `{ segments, timescale }`. -/
structure SidxResult where
  segments : List SubSegment
  timescale : Nat
deriving DecidableEq

/-- Reference-record loop of `parseSidx` (`mp4.js`), one iteration per
count: read the 32-bit word holding the reference type (top bit) and
31-bit reference size, throw "not implemented" on an index-type
reference, read the 32-bit duration, skip the 32-bit SAP word, emit
`{ ts, d, r: 0, range: [offset, offset + refSize - 1] }`, then advance
`time` by `d` and `offset` by `refSize`. -/
def sidxLoop (buf : List Nat) :
    Nat → Nat → Nat → Int → Except String (List SubSegment)
  | 0, _, _, _ => .ok []
  | c + 1, pos, time, offset =>
    let refChunk := be4toi buf pos
    let refType := refChunk % 2 ^ 32 / 2 ^ 31
    let refSize := refChunk % 2 ^ 31
    if refType = 1 then .error "not implemented"
    else
      let d := be4toi buf (pos + 4)
      match sidxLoop buf c (pos + 12) (time + d) (offset + Int.ofNat refSize) with
      | .error e => .error e
      | .ok rest =>
        .ok (⟨time, d, 0, (offset, offset + Int.ofNat refSize - 1)⟩ :: rest)

/-- `parseSidx(buf, offset)` of `mp4.js`: locate the `sidx` box via
`findAtom` (`.ok none` models the JS `null` when absent), read the box
size, the version byte at `index + 8`, the timescale at `index + 16`,
then the version-dependent 32-bit (version 0) or 64-bit (version 1)
earliest-presentation-time and first-offset; the first-offset and the
box's own declared size are both added to the caller-supplied `offset`.
Any other version also returns the JS `null`. Finally read the 16-bit
reference count and run the reference loop. -/
def parseSidx (buf : List Nat) (offset : Int) :
    Except String (Option SidxResult) :=
  match findAtom buf 0x73696478 with
  | .error e => .error e
  | .ok idxI =>
    if idxI = -1 then .ok none
    else
      let index := idxI.toNat
      let size := be4toi buf index
      let version := buf.getD (index + 8) 0
      let timescale := be4toi buf (index + 16)
      if version = 0 then
        let time := be4toi buf (index + 20)
        let offset1 := offset + Int.ofNat (be4toi buf (index + 24)) + Int.ofNat size
        let count := be2toi buf (index + 30)
        match sidxLoop buf count (index + 32) time offset1 with
        | .error e => .error e
        | .ok segs => .ok (some ⟨segs, timescale⟩)
      else if version = 1 then
        let time := be8toi buf (index + 20)
        let offset1 := offset + Int.ofNat (be8toi buf (index + 28)) + Int.ofNat size
        let count := be2toi buf (index + 38)
        match sidxLoop buf count (index + 40) time offset1 with
        | .error e => .error e
        | .ok segs => .ok (some ⟨segs, timescale⟩)
      else .ok none

/-- `Atom(name, buff)` of `mp4.js`: wrap `buff` in an 8-byte box header,
a 4-byte big-endian size (`buff.length + 8`) followed by the 4 name
bytes. -/
def Atom (name : List Char) (buff : List Nat) : List Nat :=
  concatBytes [.arr (itobe4 (buff.length + 8)), .arr (strToBytes name), .arr buff]

/-- A content-protection descriptor as consumed by `createPssh`
(`mp4.js`): a system id string (32 hex digits with optional hyphens) and
private data bytes. The JS string is modelled as its character list. -/
structure PsshDescriptor where
  systemId : List Char
  privateData : List Nat
deriving DecidableEq

/-- Hexadecimal-digit test on a character. -/
def isHexDigit (c : Char) : Bool :=
  (('0' ≤ c) && (c ≤ '9')) || (('a' ≤ c) && (c ≤ 'f')) ||
    (('A' ≤ c) && (c ≤ 'F'))

/-- Value of a hexadecimal digit. -/
def hexDigitVal (c : Char) : Nat :=
  if '0' ≤ c ∧ c ≤ '9' then c.toNat - '0'.toNat
  else if 'a' ≤ c ∧ c ≤ 'f' then c.toNat - 'a'.toNat + 10
  else if 'A' ≤ c ∧ c ≤ 'F' then c.toNat - 'A'.toNat + 10
  else 0

/-- Modelled from the spec: `hexToBytes` of `utils/bytes` is not under
`src/`. Each pair of hexadecimal digits becomes one byte; the spec
requires the system id to consist of hexadecimal characters, so decoding
fails on a character that is not a hexadecimal digit (and on an odd
length, which leaves a dangling character). -/
def hexToBytes : List Char → Except String (List Nat)
  | [] => .ok []
  | [_] => .error "hexToBytes: bad hex string"
  | c1 :: c2 :: rest =>
    if isHexDigit c1 && isHexDigit c2 then
      match hexToBytes rest with
      | .ok bs => .ok ((hexDigitVal c1 * 16 + hexDigitVal c2) :: bs)
      | .error e => .error e
    else .error "hexToBytes: bad hex string"

/-- `createPssh({ systemId, privateData })` of `mp4.js`: strip hyphens
from the system id, `assert(systemId.length === 32)` (a throw on
failure), then build a `pssh` box whose content is 4 zeroed bytes, the 16
bytes decoded from the hex system id, the 4-byte big-endian private-data
length, and the private data. -/
def createPssh (d : PsshDescriptor) : Except String (List Nat) :=
  if (d.systemId.filter fun c => c ≠ '-').length = 32 then
    match hexToBytes (d.systemId.filter fun c => c ≠ '-') with
    | .ok idBytes =>
      .ok (Atom ['p', 's', 's', 'h']
        (concatBytes [.num 4, .arr idBytes,
          .arr (itobe4 d.privateData.length), .arr d.privateData]))
    | .error e => .error e
  else .error "Assertion failed"

/-- The `for` loop of `patchPssh` (`mp4.js`): build one `pssh` box per
descriptor, in input order; the first thrown error aborts the whole
call. -/
def createPsshList : List PsshDescriptor → Except String (List (List Nat))
  | [] => .ok []
  | d :: rest =>
    match createPssh d with
    | .error e => .error e
    | .ok b =>
      match createPsshList rest with
      | .error e => .error e
      | .ok bs => .ok (b :: bs)

/-- `patchPssh(buf, pssList)` of `mp4.js`: an empty (or missing)
descriptor list returns `buf` itself; otherwise locate the `moov` box
(`-1` also returns `buf`), take its declared-size region
(`buf.subarray(pos, pos + size)`, which clamps like the JS `subarray`),
append the freshly built `pssh` boxes, overwrite the first 4 bytes of the
concatenation with its big-endian total length, and return the bytes
before the region, the rebuilt region, and the bytes after it as a fresh
buffer. -/
def patchPssh (buf : List Nat) (pssList : List PsshDescriptor) :
    Except String (List Nat) :=
  if pssList.isEmpty then .ok buf
  else
    match findAtom buf 0x6d6f6f76 with
    | .error e => .error e
    | .ok posI =>
      if posI = -1 then .ok buf
      else
        let pos := posI.toNat
        let size := be4toi buf pos
        let moov := (buf.drop pos).take size
        match createPsshList pssList with
        | .error e => .error e
        | .ok boxes =>
          let newmoov := moov ++ boxes.flatten
          let newmoov2 := itobe4 newmoov.length ++ newmoov.drop 4
          .ok (buf.take pos ++ newmoov2 ++ buf.drop (pos + size))

/-! ### Serialized buffer queue (`BufferingQueue`)

The queue entries are identified by the order in which they were enqueued
(`nextId` counts `queueAction` calls); an entry's rx `Subject` is
modelled by the instrumentation log `settled`, which records, in
settlement order, each entry's id together with `true` for a completed
(`next`/`complete`) subject and `false` for an errored one. `dispatched`
records, in call order, every invocation of one of the source buffer's
primitives (`appendBuffer` / `appendStream` / `remove`); `updating` is
the external `SourceBuffer.updating` busy flag, which in this closed
model is driven only by the queue's own dispatches. `dispose` is not
modelled (no claim is about it). -/

/-- External events driving the `BufferingQueue`: a `queueAction` call by
a producer, and the `SourceBuffer` finishing its outstanding operation
with success (the `update` event, then the `updateend` event) or failure
(the `error` event, then the `updateend` event). The source buffer fires
these only while it has an outstanding operation (`updating = true`); a
primitive that raises synchronously never starts an operation, so no
event follows it. -/
inductive Ev where
  | enqueue
  | update
  | error
deriving DecidableEq

/-- State of a `BufferingQueue` instance together with its source buffer
and the instrumentation logs. `queue` holds entry ids, newest first
(`unshift` prepends, `pop` takes the last, oldest, element); `flushing`
is the subject of the entry currently dispatched, `none` when idle. -/
structure QState where
  queue : List Nat
  flushing : Option Nat
  updating : Bool
  settled : List (Nat × Bool)
  dispatched : List Nat
  nextId : Nat
deriving DecidableEq

/-- `onUpdate(evt)`: if an entry is being flushed, complete its subject
with success and clear `flushing`; otherwise do nothing. -/
def onUpdate (s : QState) : QState :=
  match s.flushing with
  | some id => { s with flushing := none, settled := s.settled ++ [(id, true)] }
  | none => s

/-- `onError(error)`: if an entry is being flushed, error its subject and
clear `flushing`; otherwise do nothing. -/
def onError (s : QState) : QState :=
  match s.flushing with
  | some id => { s with flushing := none, settled := s.settled ++ [(id, false)] }
  | none => s

/-- `flush()`: a no-op when an entry is already being flushed, the queue
is empty, or the source buffer reports itself busy; otherwise `pop` the
oldest entry, mark it as flushing, and invoke the corresponding source
buffer primitive — `raises id = true` means that invocation throws
synchronously, which the `catch` block forwards to `onError`; otherwise
the source buffer becomes busy. -/
def flush (raises : Nat → Bool) (s : QState) : QState :=
  if s.flushing.isSome ∨ s.queue.isEmpty ∨ s.updating then s
  else
    match s.queue.getLast? with
    | none => s
    | some id =>
      let s1 : QState :=
        { s with queue := s.queue.dropLast, flushing := some id,
                 dispatched := s.dispatched ++ [id] }
      if raises id then onError s1
      else { s1 with updating := true }

/-- `queueAction(type, args)`: `unshift` a fresh entry and, when the new
queue length is 1, call `flush` synchronously. -/
def queueAction (raises : Nat → Bool) (s : QState) : QState :=
  let id := s.nextId
  let q := id :: s.queue
  let s1 : QState := { s with queue := q, nextId := id + 1 }
  if q.length = 1 then flush raises s1 else s1

/-- One external event: an enqueue runs `queueAction`; a successful
completion clears the busy flag, fires `update` (handled by `onUpdate`)
and then `updateend` (handled by `flush`); a failed operation clears the
busy flag, fires `error` (handled by `onError`) and then `updateend`
(handled by `flush`). The source buffer delivers completion and error
events only while busy. -/
def stepQ (raises : Nat → Bool) (s : QState) : Ev → QState
  | .enqueue => queueAction raises s
  | .update =>
    if s.updating then flush raises (onUpdate { s with updating := false })
    else s
  | .error =>
    if s.updating then flush raises (onError { s with updating := false })
    else s

/-- A freshly constructed `BufferingQueue` over an idle source buffer. -/
def initQ : QState := ⟨[], none, false, [], [], 0⟩

/-- Run a trace of external events against a fresh queue. -/
def runQueue (raises : Nat → Bool) (tr : List Ev) : QState :=
  tr.foldl (stepQ raises) initQ

/-! ### Heap-with-identity model for `patchPssh`

`patchPssh` mixes `subarray` views, fresh allocations (`concat`) and an
in-place `set`; to state that the input buffer is never mutated, the
relevant allocations and the single write are made explicit against a
store of arrays addressed by id. -/

/-- A store of byte arrays addressed by allocation id. -/
structure Mem where
  arrays : List (List Nat)
deriving DecidableEq

/-- Bytes of the array with id `id`. -/
def Mem.read (m : Mem) (id : Nat) : List Nat :=
  m.arrays.getD id []

/-- Allocate a fresh array holding `data`, returning its id. -/
def Mem.alloc (m : Mem) (data : List Nat) : Mem × Nat :=
  (⟨m.arrays ++ [data]⟩, m.arrays.length)

/-- Overwrite `bytes.length` bytes of `l` starting at `off`. -/
def overwriteAt (l : List Nat) (off : Nat) (bytes : List Nat) : List Nat :=
  l.take off ++ bytes ++ l.drop (off + bytes.length)

/-- `TypedArray.set(bytes, off)` on the array with id `id`: an in-place
write through the store. -/
def Mem.write (m : Mem) (id : Nat) (off : Nat) (bytes : List Nat) : Mem :=
  ⟨m.arrays.set id (overwriteAt (m.read id) off bytes)⟩

/-- `patchPssh` against the explicit store: `buf.subarray(pos, pos + size)`
is a view of the input (no allocation and no copy), `concat` allocates a
fresh array copying the view's bytes and the built `pssh` boxes,
`newmoov.set(itobe4(newmoov.length), 0)` is the single in-place write and
goes to that fresh array, and the final `concat` allocates the output.
Returns the store after the call and the result (the id of the returned
array, or the thrown error). -/
def patchPsshMem (m : Mem) (bufId : Nat) (pssList : List PsshDescriptor) :
    Mem × Except String Nat :=
  let buf := m.read bufId
  if pssList.isEmpty then (m, .ok bufId)
  else
    match findAtom buf 0x6d6f6f76 with
    | .error e => (m, .error e)
    | .ok posI =>
      if posI = -1 then (m, .ok bufId)
      else
        let pos := posI.toNat
        let size := be4toi buf pos
        match createPsshList pssList with
        | .error e => (m, .error e)
        | .ok boxes =>
          let moovBytes := (buf.drop pos).take size
          let am1 := m.alloc (moovBytes ++ boxes.flatten)
          let m1 := am1.1
          let newmoovId := am1.2
          let m2 := m1.write newmoovId 0 (itobe4 (m1.read newmoovId).length)
          let am3 := m2.alloc
            (buf.take pos ++ m2.read newmoovId ++ buf.drop (pos + size))
          (am3.1, .ok am3.2)

/-- Reachable-state invariant of the `BufferingQueue` model: for some `k`,
the primitives were invoked exactly for entries `0 … k-1` in order, the
settled log lists ids `0 … settled.length - 1` in order, the entry being
flushed (if any) is exactly the dispatched-but-unsettled one (`k - 1`),
the FIFO holds the not-yet-dispatched ids `k … nextId - 1` (newest
first), and the source buffer is busy exactly while an entry is being
flushed. -/
def QInv (s : QState) : Prop :=
  ∃ k,
    s.dispatched = List.range k ∧
    s.settled.map Prod.fst = List.range s.settled.length ∧
    (s.flushing = none → s.settled.length = k) ∧
    (∀ j, s.flushing = some j → k = j + 1 ∧ s.settled.length = j) ∧
    s.queue = (List.range' k (s.nextId - k)).reverse ∧
    k ≤ s.nextId ∧
    s.updating = s.flushing.isSome

theorem dropLast_reverse_eq (l : List α) : l.reverse.dropLast = l.tail.reverse := by
  cases l with
  | nil => rfl
  | cons a t => simp [List.reverse_cons, List.dropLast_concat]

theorem qinv_flush (raises : Nat → Bool) (s : QState) (h : QInv s) :
    QInv (flush raises s) := by
  obtain ⟨k, hd, hs, hnone, hsome, hq, hk, hu⟩ := h
  unfold flush
  by_cases hc : s.flushing.isSome ∨ s.queue.isEmpty ∨ s.updating
  · rw [if_pos hc]
    exact ⟨k, hd, hs, hnone, hsome, hq, hk, hu⟩
  · rw [if_neg hc]
    push_neg at hc
    obtain ⟨hfl, hqe, hup⟩ := hc
    have hfln : s.flushing = none := by
      cases hfv : s.flushing with
      | none => rfl
      | some j => rw [hfv] at hfl; simp at hfl
    have hsl : s.settled.length = k := hnone hfln
    have hm : s.nextId - k ≠ 0 := by
      intro h0
      rw [hq, h0] at hqe
      simp at hqe
    obtain ⟨m, hm1⟩ : ∃ m, s.nextId - k = m + 1 :=
      ⟨s.nextId - k - 1, by omega⟩
    have hq1 : s.queue = (List.range' k (m + 1)).reverse := by rw [hq, hm1]
    have hlast : s.queue.getLast? = some k := by
      rw [hq1, List.getLast?_reverse, List.range'_succ]
      rfl
    rw [hlast]
    have hdrop : s.queue.dropLast = (List.range' (k + 1) m).reverse := by
      rw [hq1, dropLast_reverse_eq, List.range'_succ]
      rfl
    have hupf : s.updating = false := by simpa using hup
    by_cases hr : raises k = true
    · simp only [hr, if_true, onError]
      refine ⟨k + 1, ?_, ?_, ?_, ?_, ?_, ?_, ?_⟩
      · simpa [hd] using (List.range_succ k).symm
      · simp [hs, hsl, List.range_succ]
      · intro _
        simp [hsl]
      · intro j hj
        simp at hj
      · simp only [hdrop]
        congr 2
        omega
      · dsimp only
        omega
      · simp [hupf]
    · simp only [hr, if_false, Bool.false_eq_true]
      refine ⟨k + 1, ?_, hs, ?_, ?_, ?_, ?_, ?_⟩
      · simpa [hd] using (List.range_succ k).symm
      · intro hcon
        simp at hcon
      · intro j hj
        have hjk : j = k := by simpa using hj.symm
        exact ⟨by omega, by rw [hsl, hjk]⟩
      · simp only [hdrop]
        congr 2
        omega
      · dsimp only
        omega
      · simp

theorem qinv_queueAction (raises : Nat → Bool) (s : QState) (h : QInv s) :
    QInv (queueAction raises s) := by
  obtain ⟨k, hd, hs, hnone, hsome, hq, hk, hu⟩ := h
  have h2 : QInv
      { s with queue := s.nextId :: s.queue, nextId := s.nextId + 1 } := by
    refine ⟨k, hd, hs, hnone, hsome, ?_, by dsimp only; omega, hu⟩
    dsimp only
    rw [hq]
    have hrange : List.range' k (s.nextId + 1 - k) =
        List.range' k (s.nextId - k) ++ [s.nextId] := by
      have hsub : s.nextId + 1 - k = (s.nextId - k) + 1 := by omega
      rw [hsub, List.range'_concat]
      congr 2
      omega
    rw [hrange]
    simp
  unfold queueAction
  by_cases hlen : (s.nextId :: s.queue).length = 1
  · rw [if_pos hlen]
    exact qinv_flush raises _ h2
  · rw [if_neg hlen]
    exact h2

theorem qinv_stepQ (raises : Nat → Bool) (s : QState) (e : Ev) (h : QInv s) :
    QInv (stepQ raises s e) := by
  cases e with
  | enqueue => exact qinv_queueAction raises s h
  | update =>
    simp only [stepQ]
    by_cases hb : s.updating = true
    · rw [if_pos hb]
      obtain ⟨k, hd, hs, hnone, hsome, hq, hk, hu⟩ := h
      have hflso : s.flushing.isSome = true := by rw [← hu]; exact hb
      obtain ⟨j, hj⟩ : ∃ j, s.flushing = some j :=
        Option.isSome_iff_exists.mp hflso
      obtain ⟨hkj, hlj⟩ := hsome j hj
      apply qinv_flush
      refine ⟨k, ?_, ?_, ?_, ?_, ?_, ?_, ?_⟩
      · simpa [onUpdate, hj] using hd
      · simp [onUpdate, hj, hs, hlj, List.range_succ]
      · intro _
        simp [onUpdate, hj, hlj, hkj]
      · intro i hi
        simp [onUpdate, hj] at hi
      · simpa [onUpdate, hj] using hq
      · simpa [onUpdate, hj] using hk
      · simp [onUpdate, hj]
    · rw [if_neg hb]
      exact h
  | error =>
    simp only [stepQ]
    by_cases hb : s.updating = true
    · rw [if_pos hb]
      obtain ⟨k, hd, hs, hnone, hsome, hq, hk, hu⟩ := h
      have hflso : s.flushing.isSome = true := by rw [← hu]; exact hb
      obtain ⟨j, hj⟩ : ∃ j, s.flushing = some j :=
        Option.isSome_iff_exists.mp hflso
      obtain ⟨hkj, hlj⟩ := hsome j hj
      apply qinv_flush
      refine ⟨k, ?_, ?_, ?_, ?_, ?_, ?_, ?_⟩
      · simpa [onError, hj] using hd
      · simp [onError, hj, hs, hlj, List.range_succ]
      · intro _
        simp [onError, hj, hlj, hkj]
      · intro i hi
        simp [onError, hj] at hi
      · simpa [onError, hj] using hq
      · simpa [onError, hj] using hk
      · simp [onError, hj]
    · rw [if_neg hb]
      exact h

theorem qinv_init : QInv initQ :=
  ⟨0, rfl, rfl, fun _ => rfl, fun j hj => by simp [initQ] at hj, rfl,
    Nat.le_refl 0, rfl⟩

theorem qinv_foldl (raises : Nat → Bool) (tr : List Ev) (s : QState)
    (h : QInv s) : QInv (tr.foldl (stepQ raises) s) := by
  induction tr generalizing s with
  | nil => exact h
  | cons e rest ih => exact ih _ (qinv_stepQ raises s e h)

theorem qinv_run (raises : Nat → Bool) (tr : List Ev) :
    QInv (runQueue raises tr) :=
  qinv_foldl raises tr initQ qinv_init

/-- C1: over every trace of enqueues and source-buffer events, and any
pattern of synchronously raising primitives, completion handles settle in
exactly enqueue order (the settled log lists ids `0, 1, …` in order), the
resource primitives are invoked in exactly FIFO order, and at most one
dispatched operation is unsettled at any time — the resource never
receives a second primitive call before the previous one settles
(`dispatched.length ≤ settled.length + 1` at every reachable state, since
the trace is universally quantified over all prefixes). -/
theorem c1_queue_fifo_single_inflight (raises : Nat → Bool) (tr : List Ev) :
    (runQueue raises tr).settled.map Prod.fst =
        List.range (runQueue raises tr).settled.length ∧
    (runQueue raises tr).dispatched =
        List.range (runQueue raises tr).dispatched.length ∧
    (runQueue raises tr).settled.length ≤
        (runQueue raises tr).dispatched.length ∧
    (runQueue raises tr).dispatched.length ≤
        (runQueue raises tr).settled.length + 1 := by
  obtain ⟨k, hd, hs, hnone, hsome, hq, hk, hu⟩ := qinv_run raises tr
  have hdl : (runQueue raises tr).dispatched.length = k := by
    rw [hd, List.length_range]
  have hsk : (runQueue raises tr).settled.length ≤ k ∧
      k ≤ (runQueue raises tr).settled.length + 1 := by
    cases hf : (runQueue raises tr).flushing with
    | none =>
      have := hnone hf
      omega
    | some j =>
      have := hsome j hf
      omega
  exact ⟨hs, by rw [hd, List.length_range], by omega, by omega⟩

/-- C10: an `update` or `error` event delivered while no entry is being
flushed (`flushing = none`, e.g. the Idle state) leaves the whole queue
state unchanged — no completion handle settles, the FIFO and dispatch
logs are untouched, and the handlers are total (no exception). -/
theorem c10_idle_event_no_effect (s : QState) (h : s.flushing = none) :
    onUpdate s = s ∧ onError s = s := by
  constructor <;> simp [onUpdate, onError, h]

theorem c10_idle_event_no_effect_witness :
    initQ.flushing = none ∧ onUpdate initQ = initQ ∧ onError initQ = initQ :=
  ⟨rfl, (c10_idle_event_no_effect initQ rfl).1,
    (c10_idle_event_no_effect initQ rfl).2⟩

/-- Resource behaviour for C6's scenario: the primitive raises
synchronously on the second enqueued operation (id 1). -/
def raisesSecond : Nat → Bool := fun i => i == 1

/-- Resource behaviour that never raises synchronously. -/
def raisesNever : Nat → Bool := fun _ => false

/-- Three appends enqueued, then the first operation completes; with
`raisesSecond`, the second dispatch raises synchronously during the
`updateend` flush, after which the source buffer has no outstanding
operation and emits no further events. -/
def trSync : List Ev := [.enqueue, .enqueue, .enqueue, .update]

/-- Three appends enqueued; the first completes, the second fails
asynchronously (the `error` event), the third completes. -/
def trAsync : List Ev := [.enqueue, .enqueue, .enqueue, .update, .error, .update]

/-- C6 counterexample: when the resource primitive raises synchronously
on the second of three queued operations, the second's handle does get
the error, but after the full event trace the third operation was never
dispatched and never settles: the queue still holds entry 2 while
nothing is flushing and the resource is idle, so no conforming resource
event is pending — contradicting the claim that the first and third
still receive success and that the third's dispatch begins after the
second settles. -/
theorem c6_sync_raise_counterexample :
    (runQueue raisesSecond trSync).settled = [(0, true), (1, false)] ∧
    (runQueue raisesSecond trSync).dispatched = [0, 1] ∧
    (runQueue raisesSecond trSync).queue = [2] ∧
    (runQueue raisesSecond trSync).flushing = none ∧
    (runQueue raisesSecond trSync).updating = false := by
  decide

theorem stepQ_stuck (raises : Nat → Bool) (s : QState)
    (h : s.updating = false) (e : Ev) (he : e ≠ Ev.enqueue) :
    stepQ raises s e = s := by
  cases e with
  | enqueue => exact absurd rfl he
  | update => simp [stepQ, h]
  | error => simp [stepQ, h]

theorem foldl_stuck (raises : Nat → Bool) (s : QState)
    (h : s.updating = false) (l : List Ev)
    (hl : ∀ e ∈ l, e ≠ Ev.enqueue) : l.foldl (stepQ raises) s = s := by
  induction l with
  | nil => rfl
  | cons e rest ih =>
    rw [List.foldl_cons, stepQ_stuck raises s h e (hl e (by simp))]
    exact ih fun x hx => hl x (by simp [hx])

/-- C6 amended: after every asynchronous settlement (completion or error
event) the `updateend` event re-runs `flush`, so with an asynchronous
error on the second of three operations the second's handle receives the
error, the first and third receive success, and the third is dispatched
only once the second has settled. But when the primitive raises
synchronously at dispatch, the failing entry's handle receives the error
and no re-dispatch happens: under every further sequence of source-buffer
events (which a conforming idle resource does not even emit), the third
entry stays queued, undispatched and unsettled. -/
theorem c6_amended_redispatch :
    (runQueue raisesNever trAsync).settled = [(0, true), (1, false), (2, true)] ∧
    (runQueue raisesNever (trAsync.take 4)).dispatched = [0, 1] ∧
    (runQueue raisesNever (trAsync.take 4)).settled = [(0, true)] ∧
    (runQueue raisesNever (trAsync.take 5)).dispatched = [0, 1, 2] ∧
    ∀ future : List Ev, (∀ e ∈ future, e ≠ Ev.enqueue) →
      (runQueue raisesSecond (trSync ++ future)).settled = [(0, true), (1, false)] ∧
      (runQueue raisesSecond (trSync ++ future)).dispatched = [0, 1] := by
  refine ⟨by decide, by decide, by decide, by decide, ?_⟩
  intro future hf
  have hrun : runQueue raisesSecond (trSync ++ future) =
      future.foldl (stepQ raisesSecond) (runQueue raisesSecond trSync) := by
    unfold runQueue
    rw [List.foldl_append]
  have hstall : (runQueue raisesSecond trSync).updating = false := by decide
  rw [hrun, foldl_stuck raisesSecond _ hstall future hf]
  exact ⟨by decide, by decide⟩

theorem c6_amended_redispatch_witness :
    (runQueue raisesSecond (trSync ++ [Ev.update])).settled =
      [(0, true), (1, false)] :=
  (c6_amended_redispatch.2.2.2.2 [Ev.update] (by decide)).1

/-- Positions the `findAtom` / `getAtomContent` scan loop actually
reaches: it starts at 0 and advances past a box only when that box's
header is readable (`i + 8 < buf.length`), its size is positive (no
assert) and its name does not match. -/
inductive ScanPos (buf : List Nat) (atomName : Nat) : Nat → Prop where
  | zero : ScanPos buf atomName 0
  | step {i : Nat} : ScanPos buf atomName i → i + 8 < buf.length →
      0 < be4toi buf i → be4toi buf (i + 4) ≠ atomName →
      ScanPos buf atomName (i + be4toi buf i)

theorem scan_reach {buf : List Nat} {atomName i : Nat}
    (h : ScanPos buf atomName i) :
    ∃ sz fuel, buf.length - i < fuel ∧
      findAtomAux buf atomName (buf.length + 1) 0 none =
        findAtomAux buf atomName fuel i sz := by
  induction h with
  | zero => exact ⟨none, buf.length + 1, by omega, rfl⟩
  | @step i hsp h8 hpos hne ih =>
    obtain ⟨sz, fuel, hf, heq⟩ := ih
    cases fuel with
    | zero => omega
    | succ f =>
      refine ⟨some (be4toi buf i), f, by omega, ?_⟩
      rw [heq]
      conv =>
        lhs
        rw [findAtomAux]
      simp [h8, hpos, hne]

/-- The scan loop of `findAtom` / `getAtomContent` instrumented with its
read positions: alongside the result it returns every loop position `i`
at which the box header was read (`be4toi` at `i` and at `i + 4`, i.e.
bytes `i … i + 7`), each guarded by `i + 8 < buf.length`. -/
def findAtomAuxReads (buf : List Nat) (atomName : Nat) :
    Nat → Nat → Option Nat → Except String (Nat × Option Nat) × List Nat
  | 0, i, sz => (.ok (i, sz), [])
  | fuel + 1, i, sz =>
    if i + 8 < buf.length then
      let size := be4toi buf i
      let name := be4toi buf (i + 4)
      if 0 < size then
        if name = atomName then (.ok (i, some size), [i])
        else
          let r := findAtomAuxReads buf atomName fuel (i + size) (some size)
          (r.1, i :: r.2)
      else (.error "dash: out of range size", [i])
    else (.ok (i, sz), [])

theorem findAtomAuxReads_fst (buf : List Nat) (atomName : Nat) :
    ∀ (fuel i : Nat) (sz : Option Nat),
      (findAtomAuxReads buf atomName fuel i sz).1 =
        findAtomAux buf atomName fuel i sz := by
  intro fuel
  induction fuel with
  | zero =>
    intro i sz
    rfl
  | succ f ih =>
    intro i sz
    simp only [findAtomAuxReads, findAtomAux]
    by_cases h8 : i + 8 < buf.length
    · simp only [h8, if_true]
      by_cases hpos : 0 < be4toi buf i
      · simp only [hpos, if_true]
        by_cases hne : be4toi buf (i + 4) = atomName
        · simp [hne]
        · simp [hne, ih]
      · simp [hpos]
    · simp [h8]

theorem findAtomAuxReads_in_range (buf : List Nat) (atomName : Nat) :
    ∀ (fuel i : Nat) (sz : Option Nat) (j : Nat),
      j ∈ (findAtomAuxReads buf atomName fuel i sz).2 →
        j + 8 < buf.length := by
  intro fuel
  induction fuel with
  | zero =>
    intro i sz j hj
    simp [findAtomAuxReads] at hj
  | succ f ih =>
    intro i sz j hj
    simp only [findAtomAuxReads] at hj
    by_cases h8 : i + 8 < buf.length
    · simp only [h8, if_true] at hj
      by_cases hpos : 0 < be4toi buf i
      · simp only [hpos, if_true] at hj
        by_cases hne : be4toi buf (i + 4) = atomName
        · simp [hne] at hj
          omega
        · simp only [hne, if_false] at hj
          rcases List.mem_cons.mp hj with h | h
          · omega
          · exact ih _ _ j h
      · simp [hpos] at hj
        omega
    · simp [h8] at hj

/-- C2 amended: whenever the scan loop actually reaches a top-level box
header with declared size 0, both `findAtom` and `getAtomContent` throw
the "out of range size" decode error; when the scan reaches a box whose
name matches but whose declared size extends past the buffer end,
`findAtom` throws the "atom out of range" decode error, while
`getAtomContent` returns the matched box's body clamped to the buffer
end (its general matched-box result, proved in the third conjunct) —
no error but also no out-of-range read; and the scan never reads out of
range: the instrumented loop computes the same result and every header
read it performs sits at a position whose full 8 bytes lie inside the
buffer. (What the original claim additionally asserted — that a
NON-matching box extending past the end is also an error — is false:
the scan then steps past the end of the buffer and reports the ordinary
not-found result; see the counterexample.) -/
theorem c2_amended_scan_errors :
    (∀ (buf : List Nat) (atomName i : Nat), ScanPos buf atomName i →
      i + 8 < buf.length → be4toi buf i = 0 →
        findAtom buf atomName = .error "dash: out of range size" ∧
        getAtomContent buf atomName = .error "dash: out of range size") ∧
    (∀ (buf : List Nat) (atomName i : Nat), ScanPos buf atomName i →
      i + 8 < buf.length → be4toi buf (i + 4) = atomName →
      buf.length < i + be4toi buf i →
        findAtom buf atomName = .error "dash: atom out of range") ∧
    (∀ (buf : List Nat) (atomName i : Nat), ScanPos buf atomName i →
      i + 8 < buf.length → 0 < be4toi buf i → be4toi buf (i + 4) = atomName →
        getAtomContent buf atomName =
          .ok (some ((buf.take (i + be4toi buf i)).drop (i + 8)))) ∧
    (∀ (buf : List Nat) (atomName : Nat),
      (findAtomAuxReads buf atomName (buf.length + 1) 0 none).1 =
        findAtomAux buf atomName (buf.length + 1) 0 none) ∧
    (∀ (buf : List Nat) (atomName j : Nat),
      j ∈ (findAtomAuxReads buf atomName (buf.length + 1) 0 none).2 →
        j + 8 < buf.length) := by
  refine ⟨?_, ?_, ?_, ?_, ?_⟩
  · intro buf atomName i hsp h8 h0
    obtain ⟨sz, fuel, hf, heq⟩ := scan_reach hsp
    obtain ⟨f, rfl⟩ : ∃ f, fuel = f + 1 := ⟨fuel - 1, by omega⟩
    have hstep : findAtomAux buf atomName (f + 1) i sz =
        .error "dash: out of range size" := by
      rw [findAtomAux]
      simp [h8, h0]
    have htop : findAtomAux buf atomName (buf.length + 1) 0 none =
        .error "dash: out of range size" := by rw [heq]; exact hstep
    constructor
    · unfold findAtom
      rw [htop]
    · unfold getAtomContent
      rw [htop]
  · intro buf atomName i hsp h8 hname hover
    obtain ⟨sz, fuel, hf, heq⟩ := scan_reach hsp
    obtain ⟨f, rfl⟩ : ∃ f, fuel = f + 1 := ⟨fuel - 1, by omega⟩
    have hpos : 0 < be4toi buf i := by omega
    have hstep : findAtomAux buf atomName (f + 1) i sz =
        .ok (i, some (be4toi buf i)) := by
      rw [findAtomAux]
      simp [h8, hpos, hname]
    unfold findAtom
    rw [heq, hstep]
    have hi : ¬ buf.length ≤ i := by omega
    have hle : ¬ (i + be4toi buf i ≤ buf.length) := by omega
    simp [hi, hle]
  · intro buf atomName i hsp h8 hpos hname
    obtain ⟨sz, fuel, hf, heq⟩ := scan_reach hsp
    obtain ⟨f, rfl⟩ : ∃ f, fuel = f + 1 := ⟨fuel - 1, by omega⟩
    have hstep : findAtomAux buf atomName (f + 1) i sz =
        .ok (i, some (be4toi buf i)) := by
      rw [findAtomAux]
      simp [h8, hpos, hname]
    unfold getAtomContent
    rw [heq, hstep]
    have hi : i < buf.length := by omega
    simp [hi]
  · intro buf atomName
    exact findAtomAuxReads_fst buf atomName (buf.length + 1) 0 none
  · intro buf atomName j hj
    exact findAtomAuxReads_in_range buf atomName (buf.length + 1) 0 none j hj

theorem c2_amended_scan_errors_witness :
    findAtom [0, 0, 0, 0, 102, 114, 101, 101, 0] 0x73696478 =
        .error "dash: out of range size" ∧
    getAtomContent [0, 0, 0, 0, 102, 114, 101, 101, 0] 0x73696478 =
        .error "dash: out of range size" ∧
    findAtom [0, 0, 0, 200, 115, 105, 100, 120, 0] 0x73696478 =
        .error "dash: atom out of range" ∧
    getAtomContent [0, 0, 0, 200, 115, 105, 100, 120, 0] 0x73696478 =
        .ok (some [0]) ∧
    (0 : Nat) + 8 <
      ([0, 0, 0, 200, 102, 114, 101, 101, 0, 0, 0, 0] : List Nat).length :=
  ⟨(c2_amended_scan_errors.1 _ _ 0 ScanPos.zero (by decide) (by decide)).1,
   (c2_amended_scan_errors.1 _ _ 0 ScanPos.zero (by decide) (by decide)).2,
   c2_amended_scan_errors.2.1 _ _ 0 ScanPos.zero (by decide) (by decide)
     (by decide),
   (c2_amended_scan_errors.2.2.1 _ _ 0 ScanPos.zero (by decide) (by decide)
     (by decide)).trans (by decide),
   c2_amended_scan_errors.2.2.2.2 [0, 0, 0, 200, 102, 114, 101, 101, 0, 0, 0, 0]
     0x73696478 0 (by decide)⟩

/-- C2 counterexample: a 12-byte buffer whose single top-level box (name
"free") declares size 200, extending far past the buffer end. The scan
steps past the end and both `findAtom` and `getAtomContent` report the
normal not-found result (`-1` / `null`) instead of a decode error —
refuting the claim that a box whose declared size extends past the end of
the buffer is never reported as a normal "not found". -/
theorem c2_oversize_box_not_found_counterexample :
    be4toi [0, 0, 0, 200, 102, 114, 101, 101, 0, 0, 0, 0] 0 = 200 ∧
    ([0, 0, 0, 200, 102, 114, 101, 101, 0, 0, 0, 0] : List Nat).length = 12 ∧
    findAtom [0, 0, 0, 200, 102, 114, 101, 101, 0, 0, 0, 0] 0x73696478 =
        .ok (-1) ∧
    getAtomContent [0, 0, 0, 200, 102, 114, 101, 101, 0, 0, 0, 0] 0x73696478 =
        .ok none := by
  decide

/-- The synthetic version-0 `sidx` box of the spec's decode test vector:
flags 0, reference id 0, timescale 1000, earliest presentation time 0,
first offset 0, reserved 0, and two media reference records
(size 100, duration 500) and (size 150, duration 500); 56 bytes in all,
declared size 56. -/
def sidxBuf : List Nat :=
  [0, 0, 0, 56, 0x73, 0x69, 0x64, 0x78,
   0, 0, 0, 0, 0, 0, 0, 0,
   0, 0, 3, 232,
   0, 0, 0, 0, 0, 0, 0, 0,
   0, 0, 0, 2,
   0, 0, 0, 100, 0, 0, 1, 244, 0, 0, 0, 0,
   0, 0, 0, 150, 0, 0, 1, 244, 0, 0, 0, 0]

/-- C3 amended: decoding the synthetic `sidx` box with caller-supplied
anchor offset `A` yields timescale 1000 and the two segments
`{ts 0, d 500, range [A+56, A+155]}` and
`{ts 500, d 500, range [A+156, A+305]}`: the box's own declared size (56)
plus the parsed first-offset (0) is added to the anchor, so the byte
ranges start 56 bytes after `A`, not at `A` as the original claim
stated. -/
theorem c3_amended_sidx_decode (A : Int) :
    parseSidx sidxBuf A =
      .ok (some ⟨[⟨0, 500, 0, (A + 56, A + 155)⟩,
                  ⟨500, 500, 0, (A + 156, A + 305)⟩], 1000⟩) := by
  show Except.ok (some (SidxResult.mk [
      SubSegment.mk 0 500 0
        (A + Int.ofNat 0 + Int.ofNat 56,
         A + Int.ofNat 0 + Int.ofNat 56 + Int.ofNat 100 - 1),
      SubSegment.mk 500 500 0
        (A + Int.ofNat 0 + Int.ofNat 56 + Int.ofNat 100,
         A + Int.ofNat 0 + Int.ofNat 56 + Int.ofNat 100 + Int.ofNat 150 - 1)]
      1000)) = _
  simp only [Except.ok.injEq, Option.some.injEq, SidxResult.mk.injEq,
             List.cons.injEq, SubSegment.mk.injEq, Prod.mk.injEq]
  push_cast
  and_intros <;> first
    | trivial
    | omega

/-- C3 counterexample: with anchor offset 0 the decoder returns byte
ranges `[56, 155]` and `[156, 305]` — not the `[0, 99]` and `[100, 249]`
of the claim, which forgot that the box's declared size is added to the
anchor alongside the parsed first-offset. -/
theorem c3_sidx_range_counterexample :
    parseSidx sidxBuf 0 =
      .ok (some ⟨[⟨0, 500, 0, (56, 155)⟩, ⟨500, 500, 0, (156, 305)⟩], 1000⟩) ∧
    parseSidx sidxBuf 0 ≠
      .ok (some ⟨[⟨0, 500, 0, (0, 99)⟩, ⟨500, 500, 0, (100, 249)⟩], 1000⟩) := by
  decide

/-- The same synthetic `sidx` box with its version byte set to 2, a
version the decoder does not recognize. -/
def badVersionSidxBuf : List Nat :=
  [0, 0, 0, 56, 0x73, 0x69, 0x64, 0x78,
   2, 0, 0, 0, 0, 0, 0, 0,
   0, 0, 3, 232,
   0, 0, 0, 0, 0, 0, 0, 0,
   0, 0, 0, 2,
   0, 0, 0, 100, 0, 0, 1, 244, 0, 0, 0, 0,
   0, 0, 0, 150, 0, 0, 1, 244, 0, 0, 0, 0]

/-- A buffer holding a single well-formed 12-byte box named "free": it
contains no `sidx` box, so the decoder reports the "no index" result. -/
def noSidxBuf : List Nat := [0, 0, 0, 12, 102, 114, 101, 101, 0, 0, 0, 0]

/-- C5 counterexample: a `sidx` box carrying version 2 makes `parseSidx`
return exactly the same value (`.ok none`, the JS `null`) as a buffer
with no `sidx` box at all — the unrecognized-version outcome and the
"no index" outcome are conflated, not distinct as the claim states. -/
theorem c5_bad_version_conflated_counterexample :
    parseSidx badVersionSidxBuf 7 = .ok none ∧
    parseSidx noSidxBuf 7 = .ok none := by
  decide

/-- C5 amended: whenever the `sidx` box is found and its version byte is
neither 0 nor 1, `parseSidx` returns the very same "no index" value
(the JS `null`) that it returns when no `sidx` box is present; the
unrecognized version is not surfaced as a distinct error value. -/
theorem c5_amended_bad_version_is_null (buf : List Nat) (off idxI : Int)
    (hfind : findAtom buf 0x73696478 = .ok idxI) (hge : 0 ≤ idxI)
    (h0 : buf.getD (idxI.toNat + 8) 0 ≠ 0)
    (h1 : buf.getD (idxI.toNat + 8) 0 ≠ 1) :
    parseSidx buf off = .ok none := by
  unfold parseSidx
  rw [hfind]
  dsimp only
  rw [if_neg (by omega : ¬ idxI = -1), if_neg h0, if_neg h1]

theorem c5_amended_bad_version_is_null_witness :
    parseSidx badVersionSidxBuf 7 = .ok none :=
  c5_amended_bad_version_is_null badVersionSidxBuf 7 0 (by decide) (by decide)
    (by decide) (by decide)

theorem hexToBytes_isOk : ∀ s : List Char,
    (∃ bs, hexToBytes s = .ok bs) ↔
      (s.length % 2 = 0 ∧ ∀ c ∈ s, isHexDigit c)
  | [] => by simp [hexToBytes]
  | [c] => by simp [hexToBytes]
  | c1 :: c2 :: rest => by
    have ih := hexToBytes_isOk rest
    have hmod : (c1 :: c2 :: rest).length % 2 = 0 ↔ rest.length % 2 = 0 := by
      simp only [List.length_cons]
      omega
    have hmem : (∀ c ∈ c1 :: c2 :: rest, isHexDigit c) ↔
        ((isHexDigit c1 ∧ isHexDigit c2) ∧ ∀ c ∈ rest, isHexDigit c) := by
      constructor
      · intro hall
        exact ⟨⟨hall c1 (by simp), hall c2 (by simp)⟩,
          fun c hc => hall c (by simp [hc])⟩
      · intro hsplit c hc
        rcases (by simpa using hc : c = c1 ∨ c = c2 ∨ c ∈ rest) with h | h | h
        · exact h ▸ hsplit.1.1
        · exact h ▸ hsplit.1.2
        · exact hsplit.2 c h
    rw [hmod, hmem]
    by_cases h : (isHexDigit c1 && isHexDigit c2) = true
    · have hlhs : (∃ bs, hexToBytes (c1 :: c2 :: rest) = .ok bs) ↔
          (∃ bs, hexToBytes rest = .ok bs) := by
        simp only [hexToBytes, h, if_true]
        cases hres : hexToBytes rest <;> simp
      rw [hlhs, ih]
      simp only [Bool.and_eq_true] at h
      constructor
      · intro hc
        exact ⟨hc.1, ⟨h.1, h.2⟩, hc.2⟩
      · intro hc
        exact ⟨hc.1, hc.2.2⟩
    · have hlhs : ¬ ∃ bs, hexToBytes (c1 :: c2 :: rest) = .ok bs := by
        simp [hexToBytes, h]
      constructor
      · intro hc
        exact absurd hc hlhs
      · intro hc
        exact absurd (by simp [hc.2.1.1, hc.2.1.2] : (isHexDigit c1 &&
          isHexDigit c2) = true) h

/-- C7: building a protection box fails (nothing is produced; in the
`Except` model no byte of the box is built) if and only if the system id,
after hyphen removal, is not exactly 32 hexadecimal characters; every
system id normalizing to 32 hex digits is accepted, and wrong lengths or
a non-hex character among 32 characters are rejected. The hyphen-stripped
length check is `createPssh`'s own assert; the hexadecimal requirement
lives in the (spec-modelled) `hexToBytes` decoder. -/
theorem c7_system_id_validation (d : PsshDescriptor) :
    (∃ b, createPssh d = .ok b) ↔
      ((d.systemId.filter fun c => c ≠ '-').length = 32 ∧
        ∀ c ∈ d.systemId.filter fun c => c ≠ '-', isHexDigit c) := by
  unfold createPssh
  by_cases hlen : (d.systemId.filter fun c => c ≠ '-').length = 32
  · rw [if_pos hlen]
    cases hres : hexToBytes (d.systemId.filter fun c => c ≠ '-') with
    | ok idBytes =>
      have hall := ((hexToBytes_isOk _).mp ⟨idBytes, hres⟩).2
      simp only [hres]
      constructor
      · intro _
        exact ⟨hlen, hall⟩
      · intro _
        exact ⟨_, rfl⟩
    | error e =>
      have hnot : ¬ ((d.systemId.filter fun c => c ≠ '-').length % 2 = 0 ∧
          ∀ c ∈ d.systemId.filter fun c => c ≠ '-', isHexDigit c) := by
        intro hc
        obtain ⟨bs, hbs⟩ := (hexToBytes_isOk _).mpr hc
        rw [hres] at hbs
        cases hbs
      simp only [hres]
      constructor
      · intro hc
        obtain ⟨b, hb⟩ := hc
        cases hb
      · intro hc
        exact absurd ⟨by omega, hc.2⟩ hnot
  · rw [if_neg hlen]
    constructor
    · intro hc
      obtain ⟨b, hb⟩ := hc
      cases hb
    · intro hc
      exact absurd hc.1 hlen

theorem hexToBytes_length : ∀ (s : List Char) (bs : List Nat),
    hexToBytes s = .ok bs → 2 * bs.length = s.length
  | [], bs => by
    intro h
    simp only [hexToBytes] at h
    injection h with h
    simp [← h]
  | [c], bs => by
    intro h
    simp only [hexToBytes] at h
    cases h
  | c1 :: c2 :: rest, bs => by
    intro h
    simp only [hexToBytes] at h
    by_cases hh : (isHexDigit c1 && isHexDigit c2) = true
    · rw [if_pos hh] at h
      cases hres : hexToBytes rest with
      | ok bs2 =>
        rw [hres] at h
        injection h with h
        have ih := hexToBytes_length rest bs2 hres
        simp [← h, List.length_cons]
        omega
      | error e =>
        rw [hres] at h
        cases h
    · rw [if_neg hh] at h
      cases h

theorem createPssh_length (d : PsshDescriptor) (b : List Nat)
    (h : createPssh d = .ok b) : b.length = 32 + d.privateData.length := by
  unfold createPssh at h
  by_cases hlen : (d.systemId.filter fun c => c ≠ '-').length = 32
  · rw [if_pos hlen] at h
    cases hres : hexToBytes (d.systemId.filter fun c => c ≠ '-') with
    | error e =>
      rw [hres] at h
      cases h
    | ok idBytes =>
      rw [hres] at h
      injection h with h
      have h16 : idBytes.length = 16 := by
        have := hexToBytes_length _ _ hres
        omega
      simp [← h, Atom, concatBytes, strToBytes, itobe4, h16]
      omega
  · rw [if_neg hlen] at h
    cases h

theorem createPsshList_lengths : ∀ (ps : List PsshDescriptor)
    (boxes : List (List Nat)), createPsshList ps = .ok boxes →
    boxes.map List.length = ps.map fun d => 32 + d.privateData.length
  | [], boxes => by
    intro h
    simp only [createPsshList] at h
    injection h with h
    simp [← h]
  | d :: tail, boxes => by
    intro h
    simp only [createPsshList] at h
    cases hcp : createPssh d with
    | error e =>
      rw [hcp] at h
      cases h
    | ok b =>
      rw [hcp] at h
      cases hct : createPsshList tail with
      | error e =>
        rw [hct] at h
        cases h
      | ok bs =>
        rw [hct] at h
        injection h with h
        simp [← h, createPssh_length d b hcp, createPsshList_lengths tail bs hct]

theorem be4toi_itobe4 (n : Nat) (rest : List Nat) (hn : n < 2 ^ 32) :
    be4toi (itobe4 n ++ rest) 0 = n := by
  simp only [itobe4, List.cons_append, List.nil_append, be4toi,
    List.getD_cons_zero, List.getD_cons_succ]
  omega

/-- C4 amended: when the `moov` box is found (at `posI ≥ 0`, in range)
and every descriptor builds, `patchPssh` returns the bytes before the
`moov` region, a rebuilt region, and the bytes after it, where the
rebuilt region's byte length is the original `moov` size plus
`sum (8 + 24 + privateData length)` over the descriptors — each `pssh`
box being 8 header bytes, 4 zeroed bytes, the 16 system-id bytes and the
4-byte private-data length field, then the data — the rebuilt region's
leading 4-byte big-endian length field equals that actual byte length,
and the output exceeds the input by exactly that sum. The original
claim's per-descriptor increment `8 + 20 + len(privateData)` is 4 bytes
short (see the counterexample). -/
theorem c4_amended_patch_lengths (buf : List Nat)
    (pssList : List PsshDescriptor) (posI : Int) (boxes : List (List Nat))
    (hps : pssList ≠ [])
    (hfind : findAtom buf 0x6d6f6f76 = .ok posI) (hge : 0 ≤ posI)
    (hin : posI.toNat + be4toi buf posI.toNat ≤ buf.length)
    (hboxes : createPsshList pssList = .ok boxes)
    (hwrap : be4toi buf posI.toNat +
      (pssList.map fun d => 32 + d.privateData.length).sum < 2 ^ 32) :
    ∃ region,
      patchPssh buf pssList =
        .ok (buf.take posI.toNat ++ region ++
          buf.drop (posI.toNat + be4toi buf posI.toNat)) ∧
      region.length = be4toi buf posI.toNat +
        (pssList.map fun d => 32 + d.privateData.length).sum ∧
      be4toi region 0 = region.length ∧
      (buf.take posI.toNat ++ region ++
          buf.drop (posI.toNat + be4toi buf posI.toNat)).length =
        buf.length + (pssList.map fun d => 32 + d.privateData.length).sum := by
  have hflat : boxes.flatten.length =
      (pssList.map fun d => 32 + d.privateData.length).sum := by
    rw [List.length_flatten, createPsshList_lengths pssList boxes hboxes]
  have hSge : 32 ≤ (pssList.map fun d => 32 + d.privateData.length).sum := by
    cases pssList with
    | nil => exact absurd rfl hps
    | cons d tail =>
      simp only [List.map_cons, List.sum_cons]
      omega
  have hmoovlen :
      ((buf.drop posI.toNat).take (be4toi buf posI.toNat)).length =
        be4toi buf posI.toNat := by
    simp only [List.length_take, List.length_drop]
    omega
  have hnml :
      ((buf.drop posI.toNat).take (be4toi buf posI.toNat) ++
        boxes.flatten).length =
      be4toi buf posI.toNat +
        (pssList.map fun d => 32 + d.privateData.length).sum := by
    rw [List.length_append, hmoovlen, hflat]
  refine ⟨itobe4 ((buf.drop posI.toNat).take (be4toi buf posI.toNat) ++
      boxes.flatten).length ++
    ((buf.drop posI.toNat).take (be4toi buf posI.toNat) ++
      boxes.flatten).drop 4, ?_, ?_, ?_, ?_⟩
  · unfold patchPssh
    rw [if_neg (by simp [hps] : ¬ pssList.isEmpty = true), hfind]
    dsimp only
    rw [if_neg (by omega : ¬ posI = -1), hboxes]
  · simp only [List.length_append, List.length_drop, itobe4,
      List.length_cons, List.length_nil, hnml]
    omega
  · rw [be4toi_itobe4 _ _ (by rw [hnml]; omega), hnml]
    simp only [List.length_append, List.length_drop, itobe4,
      List.length_cons, List.length_nil, hnml]
    omega
  · simp only [List.length_append, List.length_take, List.length_drop,
      itobe4, List.length_cons, List.length_nil, hnml]
    omega

/-- A 12-byte buffer holding a single `moov` box of declared size 12. -/
def bufMoov : List Nat := [0, 0, 0, 12, 109, 111, 111, 118, 0, 0, 0, 0]

/-- A descriptor whose system id is 32 zero digits and whose private data
is empty; its `pssh` box is 32 bytes long. -/
def d0 : PsshDescriptor := ⟨List.replicate 32 '0', []⟩

/-- C4 counterexample: patching a 12-byte `moov`-only buffer with one
descriptor of empty private data produces a 44-byte buffer — the output
grows by `8 + 24 + 0 = 32` bytes (header, 4 zeroed bytes, 16 system-id
bytes, 4-byte length field), not by the claim's `8 + 20 + 0 = 28`. -/
theorem c4_delta_counterexample :
    (patchPssh bufMoov [d0]).map List.length = .ok 44 ∧
    bufMoov.length + (8 + 20 + 0) ≠ 44 := by
  decide

theorem c4_amended_patch_lengths_witness :
    ∃ region,
      patchPssh bufMoov [d0] =
        .ok (bufMoov.take (Int.toNat 0) ++ region ++
          bufMoov.drop (Int.toNat 0 + be4toi bufMoov (Int.toNat 0))) ∧
      region.length = be4toi bufMoov (Int.toNat 0) +
        ([d0].map fun d => 32 + d.privateData.length).sum ∧
      be4toi region 0 = region.length ∧
      (bufMoov.take (Int.toNat 0) ++ region ++
          bufMoov.drop (Int.toNat 0 + be4toi bufMoov (Int.toNat 0))).length =
        bufMoov.length + ([d0].map fun d => 32 + d.privateData.length).sum :=
  c4_amended_patch_lengths bufMoov [d0] 0
    [[0, 0, 0, 32, 112, 115, 115, 104] ++ List.replicate 24 0]
    (by decide) (by decide) (by decide) (by decide) (by decide) (by decide)

/-- C8 counterexample: a 12-byte buffer whose first box has declared size
0 contains no `moov` box, yet patching it with a non-empty descriptor
list propagates the scan's decode error instead of returning the buffer
unchanged. -/
theorem c8_no_moov_error_counterexample :
    patchPssh [0, 0, 0, 0, 102, 114, 101, 101, 0, 0, 0, 0] [d0] =
      .error "dash: out of range size" ∧
    patchPssh [0, 0, 0, 0, 102, 114, 101, 101, 0, 0, 0, 0] [d0] ≠
      .ok [0, 0, 0, 0, 102, 114, 101, 101, 0, 0, 0, 0] := by
  decide

/-- C8 amended: patching with an empty descriptor list returns the input
buffer for every buffer whatsoever (the `!pssList.length` early return
runs before any scan); and whenever the `moov` scan completes with the
not-found sentinel (`-1`), patching with any descriptor list returns the
buffer unchanged. (A buffer on which the scan itself throws a decode
error — e.g. one starting with a size-0 box — yields that error even
though no `moov` box is present; see the counterexample.) -/
theorem c8_amended_identity_cases :
    (∀ buf : List Nat, patchPssh buf [] = .ok buf) ∧
    (∀ (buf : List Nat) (ps : List PsshDescriptor),
      findAtom buf 0x6d6f6f76 = .ok (-1) → patchPssh buf ps = .ok buf) := by
  constructor
  · intro buf
    simp [patchPssh]
  · intro buf ps h
    unfold patchPssh
    by_cases hps : ps.isEmpty = true
    · rw [if_pos hps]
    · rw [if_neg hps, h]
      dsimp only
      rw [if_pos rfl]

theorem c8_amended_identity_cases_witness :
    patchPssh bufMoov [] = .ok bufMoov ∧
    patchPssh [0, 0, 0, 0, 102, 114, 101, 101, 0, 0, 0, 0] [] =
      .ok [0, 0, 0, 0, 102, 114, 101, 101, 0, 0, 0, 0] ∧
    patchPssh noSidxBuf [d0] = .ok noSidxBuf :=
  ⟨c8_amended_identity_cases.1 bufMoov,
   c8_amended_identity_cases.1 [0, 0, 0, 0, 102, 114, 101, 101, 0, 0, 0, 0],
   c8_amended_identity_cases.2 noSidxBuf [d0] (by decide)⟩

theorem alloc_length (m : Mem) (data : List Nat) :
    (m.alloc data).1.arrays.length = m.arrays.length + 1 := by
  simp [Mem.alloc]

theorem write_length (m : Mem) (id off : Nat) (bytes : List Nat) :
    (m.write id off bytes).arrays.length = m.arrays.length := by
  simp [Mem.write]

theorem read_alloc (m : Mem) (data : List Nat) (id : Nat)
    (h : id < m.arrays.length) : (m.alloc data).1.read id = m.read id := by
  simp only [Mem.alloc, Mem.read, List.getD_eq_getElem?_getD]
  rw [List.getElem?_append_left h]

theorem read_write_ne (m : Mem) (id1 id2 off : Nat) (bytes : List Nat)
    (h : id1 ≠ id2) : (m.write id2 off bytes).read id1 = m.read id1 := by
  simp only [Mem.write, Mem.read, List.getD_eq_getElem?_getD]
  rw [List.getElem?_set_ne (fun hc => h hc.symm)]

/-- C9: `patchPsshMem` never mutates the input buffer: for every store,
every valid input-buffer id and every descriptor list, the bytes of the
input array after the call (whether it returns or throws) are exactly
its bytes before the call — the single in-place write (the length-field
overwrite) goes to the freshly allocated rebuilt region, never to the
input. -/
theorem c9_patch_never_mutates_input (m : Mem) (bufId : Nat)
    (ps : List PsshDescriptor) (h : bufId < m.arrays.length) :
    (patchPsshMem m bufId ps).1.read bufId = m.read bufId := by
  unfold patchPsshMem
  by_cases hps : ps.isEmpty = true
  · rw [if_pos hps]
  · rw [if_neg hps]
    cases hfind : findAtom (m.read bufId) 0x6d6f6f76 with
    | error e => rfl
    | ok posI =>
      dsimp only
      by_cases hneg : posI = -1
      · rw [if_pos hneg]
      · rw [if_neg hneg]
        cases hboxes : createPsshList ps with
        | error e => rfl
        | ok boxes =>
          dsimp only
          rw [read_alloc _ _ bufId
              (by rw [write_length, alloc_length]; omega),
            read_write_ne _ _ _ _ _ (by simp only [Mem.alloc]; omega),
            read_alloc _ _ bufId h]

theorem c9_patch_never_mutates_input_witness :
    (patchPsshMem ⟨[bufMoov]⟩ 0 [d0]).1.read 0 = Mem.read ⟨[bufMoov]⟩ 0 :=
  c9_patch_never_mutates_input ⟨[bufMoov]⟩ 0 [d0] (by decide)

end RxPlayer

